import Mathlib

/-!
# Article service of the blogging platform (`service/articlesrv.go`)

A shallow embedding of the article service and the proofs of its specification.

* Go strings are modelled by their sequence of code points (`String`, `List Char`).
* `regexp.MustCompile`, `ReplaceAllString` and `MatchString` come from Go's standard
  library; the fragment of `regexp/syntax` that the two patterns of `normalizeTagStr`
  exercise is modelled in `namespace GoRegexp`, every construct outside that fragment
  being reported as `ErrorCode.outsideFragment` instead of being guessed.
* `float64` arithmetic of `ConsoleGetArticles` is modelled exactly (round to nearest,
  ties to even, 53 significant bits) on non-negative values in the normal range.
* The persistence collaborator (`db`, `tx`) is modelled as a committed store plus the
  list of writes pending on the transaction handle, with failures injected per call.
* Concurrency is modelled by schedules: the calls of two goroutines in the order they
  happen, each marked with its goroutine, checked against the behaviour of `sync.Mutex`.
-/

namespace GoRegexp

/-- Error codes of `regexp/syntax.Error` raised by the modelled fragment. -/
inductive ErrorCode where
  | invalidCharRange
  | invalidEscape
  | invalidRepeatOp
  | missingBracket
  | missingRepeatArgument
  | trailingBackslash
  | outsideFragment
  deriving DecidableEq, Repr

/-- The value `&syntax.Error{Code, Expr}`. -/
structure ParseError where
  code : ErrorCode
  expr : String
  deriving DecidableEq, Repr

/-- Parsed regular expression (the operators the fragment produces). -/
inductive Regexp where
  | literal (c : Char)
  | charClass (negated : Bool) (ranges : List (Nat × Nat))
  | star (r : Regexp)
  | plus (r : Regexp)
  | quest (r : Regexp)
  | concat (a b : Regexp)
  | emptyMatch
  deriving DecidableEq, Repr

/-- Go's `isalnum`: ASCII letter or digit. -/
def isalnum (c : Char) : Bool :=
  ('0' ≤ c ∧ c ≤ '9') ∨ ('A' ≤ c ∧ c ≤ 'Z') ∨ ('a' ≤ c ∧ c ≤ 'z')

/-- Text of an error expression. -/
def exprOf (cs : List Char) : String := String.mk cs

/-- Go's `parseEscape`: `s` begins with a backslash. Octal and hexadecimal escapes are
outside the modelled fragment. -/
def parseEscape (s : List Char) : Except ParseError (Char × List Char) :=
  match s with
  | [] => .error ⟨.outsideFragment, ""⟩
  | _ :: [] => .error ⟨.trailingBackslash, ""⟩
  | b :: c :: t =>
    if c = '0' ∨ c = '1' ∨ c = '2' ∨ c = '3' ∨ c = '4' ∨ c = '5' ∨ c = '6' ∨ c = '7'
        ∨ c = 'x' then
      .error ⟨.outsideFragment, exprOf [b, c]⟩
    else if c = 'a' then .ok (Char.ofNat 7, t)
    else if c = 'f' then .ok (Char.ofNat 12, t)
    else if c = 'n' then .ok (Char.ofNat 10, t)
    else if c = 'r' then .ok (Char.ofNat 13, t)
    else if c = 't' then .ok (Char.ofNat 9, t)
    else if c = 'v' then .ok (Char.ofNat 11, t)
    else if c.toNat < 128 ∧ isalnum c = false then .ok (c, t)
    else .error ⟨.invalidEscape, exprOf [b, c]⟩

/-- Go's `perlGroup` table: the ranges of `\d`, `\s`, `\w` and of their complements. -/
def perlGroup (c : Char) : Option (List (Nat × Nat)) :=
  if c = 'd' then some [(0x30, 0x39)]
  else if c = 'D' then some [(0, 0x2f), (0x3a, 0x10ffff)]
  else if c = 's' then some [(0x09, 0x0a), (0x0c, 0x0d), (0x20, 0x20)]
  else if c = 'S' then some [(0, 0x08), (0x0b, 0x0b), (0x0e, 0x1f), (0x21, 0x10ffff)]
  else if c = 'w' then some [(0x30, 0x39), (0x41, 0x5a), (0x5f, 0x5f), (0x61, 0x7a)]
  else if c = 'W' then
    some [(0, 0x2f), (0x3a, 0x40), (0x5b, 0x5e), (0x60, 0x60), (0x7b, 0x10ffff)]
  else none

/-- Go's `parseClassChar`: one character of a bracket class, escaped or not. -/
def parseClassChar (s whole : List Char) : Except ParseError (Char × List Char) :=
  match s with
  | [] => .error ⟨.missingBracket, exprOf whole⟩
  | c :: t => if c = '\\' then parseEscape (c :: t) else .ok (c, t)

/-- The loop of Go's `parseClass` after the opening bracket and the optional `^`:
returns the collected ranges and the text after the closing bracket. -/
def parseClassLoop (whole : List Char) :
    Nat → Bool → List Char → List (Nat × Nat) → Except ParseError (List (Nat × Nat) × List Char)
  | 0, _, _, _ => .error ⟨.outsideFragment, exprOf whole⟩
  | fuel + 1, first, t, cls =>
    match t with
    | [] => .error ⟨.missingBracket, exprOf whole⟩
    | c :: rest =>
      if c = ']' ∧ first = false then .ok (cls, rest)
      else if c = '[' ∧ rest.head? = some ':' ∧ 2 < t.length then
        .error ⟨.outsideFragment, exprOf t⟩
      else if c = '\\' ∧ (rest.head? = some 'p' ∨ rest.head? = some 'P') then
        .error ⟨.outsideFragment, exprOf t⟩
      else
        match (if c = '\\' then rest.head?.bind perlGroup else none) with
        | some g => parseClassLoop whole fuel false (rest.drop 1) (cls ++ g)
        | none =>
          match parseClassChar t whole with
          | .error e => .error e
          | .ok (lo, t1) =>
            match t1 with
            | d :: x :: t2 =>
              if d = '-' ∧ x ≠ ']' then
                match parseClassChar (x :: t2) whole with
                | .error e => .error e
                | .ok (hi, t3) =>
                  if hi < lo then
                    .error ⟨.invalidCharRange, exprOf (t.take (t.length - t3.length))⟩
                  else parseClassLoop whole fuel false t3 (cls ++ [(lo.toNat, hi.toNat)])
              else parseClassLoop whole fuel false t1 (cls ++ [(lo.toNat, lo.toNat)])
            | _ => parseClassLoop whole fuel false t1 (cls ++ [(lo.toNat, lo.toNat)])

/-- Go's `parseClass`: `s` begins with the opening bracket. -/
def parseClass (s : List Char) : Except ParseError (Regexp × List Char) :=
  let t := s.drop 1
  let negated := decide (t.head? = some '^')
  let t := if negated then t.drop 1 else t
  match parseClassLoop s (s.length + 1) true t [] with
  | .error e => .error e
  | .ok (cls, rest) => .ok (.charClass negated cls, rest)

/-- Concatenation of the parse stack (kept in reverse order, newest first). -/
def concatStack : List Regexp → Regexp
  | [] => .emptyMatch
  | [r] => r
  | r :: rs => .concat (concatStack rs) r

/-- The main loop of Go's `syntax.Parse` under the `Perl` flags: `stack` is the parse
stack (newest first), `lastRepeat` is the text from the previous repetition operator on
(empty when the previous item was not a repetition). -/
def parseLoop : Nat → List Char → List Regexp → List Char → Except ParseError Regexp
  | 0, t, _, _ => .error ⟨.outsideFragment, exprOf t⟩
  | fuel + 1, t, stack, lastRepeat =>
    match t with
    | [] => .ok (concatStack stack)
    | c :: rest =>
      if c = '(' ∨ c = '|' ∨ c = ')' ∨ c = '^' ∨ c = '$' ∨ c = '.' ∨ c = '\x7b' then
        .error ⟨.outsideFragment, exprOf t⟩
      else if c = '[' then
        match parseClass t with
        | .error e => .error e
        | .ok (re, t1) => parseLoop fuel t1 (re :: stack) []
      else if c = '*' ∨ c = '+' ∨ c = '?' then
        if rest.head? = some '?' then .error ⟨.outsideFragment, exprOf t⟩
        else if lastRepeat ≠ [] then
          .error ⟨.invalidRepeatOp, exprOf (lastRepeat.take (lastRepeat.length - rest.length))⟩
        else
          match stack with
          | [] => .error ⟨.missingRepeatArgument, exprOf [c]⟩
          | sub :: below =>
            let re := if c = '*' then Regexp.star sub
              else if c = '+' then Regexp.plus sub else Regexp.quest sub
            parseLoop fuel rest (re :: below) t
      else if c = '\\' then
        match rest with
        | [] => .error ⟨.trailingBackslash, ""⟩
        | x :: t1 =>
          if x = 'A' ∨ x = 'b' ∨ x = 'B' ∨ x = 'C' ∨ x = 'Q' ∨ x = 'z' ∨ x = 'p' ∨ x = 'P' then
            .error ⟨.outsideFragment, exprOf [c, x]⟩
          else
            match perlGroup x with
            | some g => parseLoop fuel t1 (.charClass false g :: stack) []
            | none =>
              match parseEscape t with
              | .error e => .error e
              | .ok (r, t2) => parseLoop fuel t2 (.literal r :: stack) []
      else parseLoop fuel rest (.literal c :: stack) []

/-- Go's `regexp.Compile` on the modelled fragment. -/
def Compile (str : String) : Except ParseError Regexp :=
  parseLoop (str.length + 1) str.data [] []

/-- Membership of a code point in a parsed class. -/
def classMatches (negated : Bool) (ranges : List (Nat × Nat)) (c : Char) : Bool :=
  negated != ranges.any (fun r => decide (r.1 ≤ c.toNat) && decide (c.toNat ≤ r.2))

/-- Backtracking matcher with leftmost-first priority: matches `r` at the head of the
text and hands what is left to the continuation `k`; greedy operators try the longer
alternative first. -/
def matchK : Nat → Regexp → List Char → (List Char → Option (List Char)) → Option (List Char)
  | 0, _, _, _ => none
  | fuel + 1, r, s, k =>
    match r with
    | .literal c =>
      match s with
      | [] => none
      | x :: xs => if x = c then k xs else none
    | .charClass negated ranges =>
      match s with
      | [] => none
      | x :: xs => if classMatches negated ranges x then k xs else none
    | .concat a b => matchK fuel a s (fun s1 => matchK fuel b s1 k)
    | .star a =>
      match matchK fuel a s
          (fun s1 => if s1.length < s.length then matchK fuel (.star a) s1 k else none) with
      | some out => some out
      | none => k s
    | .plus a => matchK fuel a s (fun s1 => matchK fuel (.star a) s1 k)
    | .quest a =>
      match matchK fuel a s k with
      | some out => some out
      | none => k s
    | .emptyMatch => k s

/-- Number of operators of a parsed expression. -/
def Regexp.size : Regexp → Nat
  | .literal _ => 1
  | .charClass _ _ => 1
  | .star a => a.size + 1
  | .plus a => a.size + 2
  | .quest a => a.size + 1
  | .concat a b => a.size + b.size + 1
  | .emptyMatch => 1

/-- Match anchored at the head of the text: the text left after the preferred match. -/
def matchAt (re : Regexp) (s : List Char) : Option (List Char) :=
  matchK ((re.size + 1) * (2 * s.length + 2)) re s some

/-- Leftmost match: the text before it and the text after it. -/
def findMatch (re : Regexp) : List Char → Option (List Char × List Char)
  | [] => (matchAt re []).map (fun rest => ([], rest))
  | c :: cs =>
    match matchAt re (c :: cs) with
    | some rest => some ([], rest)
    | none => (findMatch re cs).map (fun m => (c :: m.1, m.2))

/-- Go's `(*Regexp).MatchString`: does the text contain any match. -/
def MatchString (re : Regexp) (s : String) : Bool :=
  (findMatch re s.data).isSome

/-- The loop of Go's `(*Regexp).ReplaceAllString` for a replacement text without `$`:
copies the text before each leftmost match, then the replacement; an empty match makes
the search advance by one character. -/
def replaceAllLoop (re : Regexp) (repl : List Char) : Nat → List Char → Bool → List Char
  | 0, src, _ => src
  | fuel + 1, src, afterMatch =>
    match findMatch re src with
    | none => src
    | some (before, rest) =>
      if rest.length < (src.drop before.length).length then
        before ++ repl ++ replaceAllLoop re repl fuel rest true
      else
        let ins := if afterMatch ∧ before = [] then [] else repl
        match rest with
        | [] => before ++ ins
        | c :: rest1 => before ++ ins ++ c :: replaceAllLoop re repl fuel rest1 false

/-- Go's `(*Regexp).ReplaceAllString` for a replacement text without `$`. -/
def ReplaceAllString (re : Regexp) (src repl : String) : String :=
  String.mk (replaceAllLoop re repl.data (src.length + 1) src.data false)

end GoRegexp

/-- A Go panic raised by `regexp.MustCompile`. -/
inductive Panic where
  | mustCompile (str : String) (err : GoRegexp.ParseError)
  deriving DecidableEq, Repr

/-- Go's `regexp.MustCompile`: panics when `Compile` reports an error. -/
def regexpMustCompile (str : String) : Except Panic GoRegexp.Regexp :=
  match GoRegexp.Compile str with
  | .ok re => .ok re
  | .error e => .error (.mustCompile str e)

/-- Scan of Go's `strings.Replace(s, old, new, -1)` for a non-empty `old`: `skip` counts
the characters of a matched `old` still to be dropped. -/
def stringsReplaceScan (old new : List Char) : Nat → List Char → List Char
  | _, [] => []
  | skip + 1, _ :: cs => stringsReplaceScan old new skip cs
  | 0, c :: cs =>
    if old <+: c :: cs then new ++ stringsReplaceScan old new (old.length - 1) cs
    else c :: stringsReplaceScan old new 0 cs

/-- Go's `strings.Replace(s, old, new, -1)` for a non-empty `old`. -/
def stringsReplace (s old new : String) : String :=
  String.mk (stringsReplaceScan old.data new.data 0 s.data)

/-- Pieces of a text between occurrences of the separator character. -/
def splitChars (sep : Char) : List Char → List (List Char)
  | [] => [[]]
  | c :: cs =>
    if c = sep then [] :: splitChars sep cs
    else
      match splitChars sep cs with
      | [] => [[c]]
      | h :: t => (c :: h) :: t

/-- Go's `strings.Split(s, sep)` for a one-character separator. -/
def stringsSplit (s : String) (sep : Char) : List String :=
  (splitChars sep s.data).map String.mk

/-- Go's `strings.Join(elems, sep)`. -/
def stringsJoin (elems : List String) (sep : String) : String :=
  sep.intercalate elems

/-- Source `contains`: whether `str` occurs in `strs`. -/
def contains : List String → String → Bool
  | [], _ => false
  | s :: rest, str => if s = str then true else contains rest str

/-- The `for _, tag := range tags` loop of `normalizeTagStr`. -/
def normalizeTagLoop (reg : GoRegexp.Regexp) : List String → List String → List String
  | [], retTags => retTags
  | tag :: tags, retTags =>
    if contains retTags tag then normalizeTagLoop reg tags retTags
    else if !GoRegexp.MatchString reg tag then normalizeTagLoop reg tags retTags
    else normalizeTagLoop reg tags (retTags ++ [tag])

/-- The body of source `normalizeTagStr`, the text of its second pattern being `allow`. -/
def normalizeTagStrWith (allow : String) (tagStr : String) : Except Panic String :=
  match regexpMustCompile "\\s+" with
  | .error p => .error p
  | .ok reg =>
    let tagStr := GoRegexp.ReplaceAllString reg tagStr ""
    let tagStr := stringsReplace tagStr "，" ","
    let tagStr := stringsReplace tagStr "、" ","
    let tagStr := stringsReplace tagStr "；" ","
    let tagStr := stringsReplace tagStr ";" ","
    match regexpMustCompile allow with
    | .error p => .error p
    | .ok reg =>
      let tags := stringsSplit tagStr ','
      let retTags := normalizeTagLoop reg tags []
      .ok (stringsJoin retTags ",")

/-- Text of the second pattern of source `normalizeTagStr`, a Go raw string literal:
the backslashes reach the regular-expression parser as written. -/
def tagPattern : String := "[\\u4e00-\\u9fa5,\\w,&,\\+,\\-,\\.]+"

/-- Source `normalizeTagStr`. -/
def normalizeTagStr (tagStr : String) : Except Panic String :=
  normalizeTagStrWith tagPattern tagStr

/-- The allow-list class of `tagPattern` with its two CJK bounds written as the
characters U+4E00 and U+9FA5 instead of `\u` escapes; used for comparison only. -/
def tagPatternChars : String := "[一-龥,\\w,&,\\+,\\-,\\.]+"

/-! ## Page-count arithmetic of `ConsoleGetArticles` -/

/-- Source constant `adminConsoleArticleListPageSize`. -/
def adminConsoleArticleListPageSize : Nat := 15

/-- Source constant `adminConsoleArticleListWindowsSize`. -/
def adminConsoleArticleListWindowsSize : Nat := 20

/-- A non-negative finite `float64` value, `num / den` with `den` a power of two. -/
structure Float64 where
  num : Nat
  den : Nat
  deriving DecidableEq, Repr

/-- First `n` from `start` on with `p n`, trying at most `fuel` candidates. -/
def findShift (p : Nat → Bool) : Nat → Nat → Nat
  | 0, start => start
  | fuel + 1, start => if p start then start else findShift p fuel (start + 1)

/-- Integer nearest to `a / b`, a tie going to the even neighbour. -/
def roundHalfEven (a b : Nat) : Nat :=
  if 2 * (a % b) < b then a / b
  else if b < 2 * (a % b) then a / b + 1
  else if (a / b) % 2 = 0 then a / b else a / b + 1

/-- IEEE 754 rounding of the non-negative rational `a / b` to `float64` (round to
nearest, ties to even): the quotient is scaled by `2 ^ s / 2 ^ t` so that its integer
part has 53 bits, rounded to an integer and scaled back. Covers the normal range. -/
def float64Round (a b : Nat) : Float64 :=
  if a = 0 then ⟨0, 1⟩
  else
    let t := findShift (fun t => decide (a < b * 2 ^ (53 + t))) 1100 0
    let s := findShift (fun s => decide (b * 2 ^ 52 ≤ a * 2 ^ s)) 1100 0
    ⟨roundHalfEven (a * 2 ^ s) (b * 2 ^ t) * 2 ^ t, 2 ^ s⟩

/-- Go's conversion `float64(n)` of a non-negative `int`. -/
def float64OfInt (n : Nat) : Float64 := float64Round n 1

/-- Go's `float64` division `x / y`. -/
def Float64.div (x y : Float64) : Float64 := float64Round (x.num * y.den) (x.den * y.num)

/-- Go's `math.Ceil` on a non-negative value. -/
def mathCeil (x : Float64) : Float64 := ⟨(x.num + x.den - 1) / x.den, 1⟩

/-- Go's conversion `int(x)` of a non-negative `float64`: truncation. -/
def intOfFloat64 (x : Float64) : Nat := x.num / x.den

/-- The line `pageCount := int(math.Ceil(float64(count) / adminConsoleArticleListPageSize))`
of source `ConsoleGetArticles`. -/
def pageCountOf (count : Nat) : Nat :=
  intOfFloat64 (mathCeil
    (Float64.div (float64OfInt count) (float64OfInt adminConsoleArticleListPageSize)))

/-- Arguments of the call `util.NewPagination(page, pageSize, pageCount, windowSize,
count)`. -/
structure PaginationArgs where
  currentPage : Int
  pageSize : Nat
  pageCount : Nat
  windowSize : Nat
  recordCount : Nat
  deriving DecidableEq, Repr

/-- The pagination part of source `ConsoleGetArticles`: the arguments it passes to
`util.NewPagination` when the count query has stored `count`. -/
def ConsoleGetArticlesPagination (page : Int) (count : Nat) : PaginationArgs :=
  { currentPage := page
    pageSize := adminConsoleArticleListPageSize
    pageCount := pageCountOf count
    windowSize := adminConsoleArticleListWindowsSize
    recordCount := count }

/-! ## Records and the persistence collaborator -/

/-- Modelled from the spec: the record `model.Article` (package `model` is not part of
the sources at hand), with the fields the specification's data model lists. -/
structure Article where
  ID : Nat
  CreatedAt : Nat
  AuthorID : Nat
  BlogID : Nat
  Title : String
  Tags : String
  Path : String
  Topped : Bool
  Status : Nat
  ViewCount : Nat
  CommentCount : Nat
  deriving DecidableEq, Repr

/-- Modelled from the spec: the record `model.User`: identifier, blog reference and the
running count of authored articles. -/
structure User where
  ID : Nat
  BlogID : Nat
  ArticleCount : Int
  deriving DecidableEq, Repr

/-- Modelled from the spec: the record `model.Comment`: identifier and article
reference. -/
structure Comment where
  ID : Nat
  ArticleID : Nat
  deriving DecidableEq, Repr

/-- The persisted (committed) rows: what a later reader of the database sees.
`blogArticleCount` is the per-blog article counter kept by the statistics service. -/
structure Store where
  articles : List Article
  users : List User
  comments : List Comment
  blogArticleCount : List (Nat × Int)
  deriving DecidableEq, Repr

/-- A Go `error` value as the service returns it. -/
inductive GoError where
  | collaborator (msg : String)
  | recordNotFound
  | errorsNew (msg : String)
  deriving DecidableEq, Repr

/-- The places of the service where a collaborator call can report a failure. -/
inductive CallSite where
  | addCreate
  | removeFirstArticle
  | removeFirstAuthor
  | removeUpdatesAuthor
  | removeDeleteArticle
  | removeDecArticleCount
  | removeFindComments
  | removeDeleteComments
  | updateCount
  | updateUpdates
  deriving DecidableEq, Repr

/-- Injected failures: the error message a call site fails with, if it fails. -/
abbrev Faults := CallSite → Option String

/-- Calls on the mutex, on the global handle `db`, on the transaction handle `tx` and on
the statistics service, in the order the service makes them. -/
inductive Call where
  | mutexLock
  | mutexUnlock
  | dbBegin
  | txCreate
  | txRollback
  | txCommit
  | dbFirstArticle (id : Nat)
  | dbFirstUser (id : Nat)
  | dbUpdatesUser (id : Nat)
  | dbDeleteArticle (id : Nat)
  | decArticleCountWithoutTx (blogID : Nat)
  | dbFindComments (articleID : Nat)
  | dbDeleteComments (articleID : Nat)
  | dbCountArticles (id : Nat)
  | dbUpdatesArticle (id : Nat)
  deriving DecidableEq, Repr

/-- The database as the service leaves it, with the record of the calls made. -/
structure World where
  store : Store
  log : List Call
  deriving DecidableEq, Repr

/-- Append one call to the record. -/
def World.call (w : World) (c : Call) : World := { w with log := w.log ++ [c] }

/-- A write pending on a transaction handle: the service only ever creates an article
through `tx`. -/
inductive TxWrite where
  | createArticle (a : Article)
  deriving DecidableEq, Repr

/-- Identifier the store assigns to a new article row. -/
def nextArticleID (st : Store) : Nat :=
  (st.articles.map (fun a => a.ID)).foldl max 0 + 1

/-- Effect of one committed write on the persisted rows. -/
def applyWrite (st : Store) : TxWrite → Store
  | .createArticle a =>
    { st with articles :=
        st.articles ++ [if a.ID = 0 then { a with ID := nextArticleID st } else a] }

/-- Go's `tx.Commit()`: the writes pending on the handle become persisted. -/
def txCommit (w : World) (pending : List TxWrite) : World :=
  { store := pending.foldl applyWrite w.store, log := w.log ++ [.txCommit] }

/-- Go's `tx.Rollback()`: the writes pending on the handle are dropped. -/
def txRollback (w : World) (_pending : List TxWrite) : World := w.call .txRollback

/-- The ORM's `Updates` with a struct argument on a user row: only the non-zero fields
of `u` overwrite the row. -/
def updatesUserRow (u row : User) : User :=
  if row.ID = u.ID then
    { ID := row.ID
      BlogID := if u.BlogID ≠ 0 then u.BlogID else row.BlogID
      ArticleCount := if u.ArticleCount ≠ 0 then u.ArticleCount else row.ArticleCount }
  else row

/-- The ORM's `Updates` with a struct argument on an article row: only the non-zero
fields of `a` overwrite the row. -/
def updatesArticleRow (a row : Article) : Article :=
  if row.ID = a.ID then
    { ID := row.ID
      CreatedAt := if a.CreatedAt ≠ 0 then a.CreatedAt else row.CreatedAt
      AuthorID := if a.AuthorID ≠ 0 then a.AuthorID else row.AuthorID
      BlogID := if a.BlogID ≠ 0 then a.BlogID else row.BlogID
      Title := if a.Title ≠ "" then a.Title else row.Title
      Tags := if a.Tags ≠ "" then a.Tags else row.Tags
      Path := if a.Path ≠ "" then a.Path else row.Path
      Topped := if a.Topped then true else row.Topped
      Status := if a.Status ≠ 0 then a.Status else row.Status
      ViewCount := if a.ViewCount ≠ 0 then a.ViewCount else row.ViewCount
      CommentCount := if a.CommentCount ≠ 0 then a.CommentCount else row.CommentCount }
  else row

/-- Modelled from the spec: `Statistic.DecArticleCountWithoutTx(blogID)` (the statistics
service is not part of the sources at hand) decrements the per-blog counter without a
transaction of its own; it takes no handle, so it writes through the global `db`. -/
def DecArticleCountWithoutTx (st : Store) (blogID : Nat) : Store :=
  { st with blogArticleCount :=
      st.blogArticleCount.map (fun e => if e.1 = blogID then (e.1, e.2 - 1) else e) }

/-- Lift an injected failure to the error the call returns. -/
def faultAt (f : Faults) (site : CallSite) : Option GoError :=
  (f site).map GoError.collaborator

/-- Source `articleService.ConsoleAddArticle`: the row is created through `tx`. -/
def ConsoleAddArticle (f : Faults) (w : World) (article : Article) : Option GoError × World :=
  let w := w.call .mutexLock
  let w := w.call .dbBegin
  let w := w.call .txCreate
  match faultAt f .addCreate with
  | some err => (some err, (txRollback w []).call .mutexUnlock)
  | none => (none, (txCommit w [.createArticle article]).call .mutexUnlock)

/-- The statements of source `articleService.ConsoleRemoveArticle` between taking the
mutex and the deferred release. Every read and write goes through the global handle `db`
and is persisted at once; `tx` only ever sees `Begin`, `Rollback` and `Commit`, so its list
of pending writes stays empty. -/
def removeArticleBody (f : Faults) (w : World) (id : Nat) : Option GoError × World :=
  let w := w.call .dbBegin
  let w := w.call (.dbFirstArticle id)
  match faultAt f .removeFirstArticle with
  | some err => (some err, w)
  | none =>
  match w.store.articles.find? (fun a => a.ID = id) with
  | none => (some .recordNotFound, w)
  | some article =>
  let w := w.call (.dbFirstUser article.AuthorID)
  match faultAt f .removeFirstAuthor with
  | some err => (some err, w)
  | none =>
  match w.store.users.find? (fun u => u.ID = article.AuthorID) with
  | none => (some .recordNotFound, w)
  | some author =>
  let author := { author with ArticleCount := author.ArticleCount - 1 }
  let w := w.call (.dbUpdatesUser author.ID)
  match faultAt f .removeUpdatesAuthor with
  | some err => (some err, txRollback w [])
  | none =>
  let w := { w with store := { w.store with users := w.store.users.map (updatesUserRow author) } }
  let w := w.call (.dbDeleteArticle article.ID)
  match faultAt f .removeDeleteArticle with
  | some err => (some err, txRollback w [])
  | none =>
  let w := { w with store :=
    { w.store with articles := w.store.articles.filter (fun a => a.ID ≠ article.ID) } }
  let w := w.call (.decArticleCountWithoutTx author.BlogID)
  match faultAt f .removeDecArticleCount with
  | some err => (some err, txRollback w [])
  | none =>
  let w := { w with store := DecArticleCountWithoutTx w.store author.BlogID }
  let w := w.call (.dbFindComments id)
  match faultAt f .removeFindComments with
  | some err => (some err, txRollback w [])
  | none =>
  let comments := w.store.comments.filter (fun c => c.ArticleID = id)
  if 0 < comments.length then
    let w := w.call (.dbDeleteComments id)
    match faultAt f .removeDeleteComments with
    | some err => (some err, txRollback w [])
    | none =>
      let w := { w with store :=
        { w.store with comments := w.store.comments.filter (fun c => c.ArticleID ≠ id) } }
      (none, txCommit w [])
  else (none, txCommit w [])

/-- Source `articleService.ConsoleRemoveArticle`. -/
def ConsoleRemoveArticle (f : Faults) (w : World) (id : Nat) : Option GoError × World :=
  let r := removeArticleBody f (w.call .mutexLock) id
  (r.1, r.2.call .mutexUnlock)

/-- The count query of source `ConsoleUpdateArticle`: the value left in `count`, which
starts at 0 and which the query overwrites unless it fails (its error is not read). -/
def countArticlesQuery (f : Faults) (st : Store) (id : Nat) : Nat :=
  match f .updateCount with
  | some _ => 0
  | none => (st.articles.filter (fun a => a.ID = id)).length

/-- Go's `fmt.Sprintf("not found article [id=%d] to update", id)`. -/
def notFoundMessage (id : Nat) : String :=
  "not found article [id=" ++ toString id ++ "] to update"

/-- Source `articleService.ConsoleUpdateArticle`. -/
def ConsoleUpdateArticle (f : Faults) (w : World) (article : Article) :
    Option GoError × World :=
  let w := w.call .mutexLock
  let w := w.call (.dbCountArticles article.ID)
  if 1 > countArticlesQuery f w.store article.ID then
    (some (.errorsNew (notFoundMessage article.ID)), w.call .mutexUnlock)
  else
    let w := w.call .dbBegin
    let w := w.call (.dbUpdatesArticle article.ID)
    match faultAt f .updateUpdates with
    | some err => (some err, (txRollback w []).call .mutexUnlock)
    | none =>
      let w := { w with store :=
        { w.store with articles := w.store.articles.map (updatesArticleRow article) } }
      (none, (txCommit w []).call .mutexUnlock)

/-! ## Panic text and sample data -/

/-- Go's `ErrorCode.String()`. -/
def GoRegexp.ErrorCode.text : GoRegexp.ErrorCode → String
  | .invalidCharRange => "invalid character class range"
  | .invalidEscape => "invalid escape sequence"
  | .invalidRepeatOp => "invalid nested repetition operator"
  | .missingBracket => "missing closing ]"
  | .missingRepeatArgument => "missing argument to repetition operator"
  | .trailingBackslash => "trailing backslash at end of expression"
  | .outsideFragment => "(construct outside the modelled fragment)"

/-- Go's `(*syntax.Error).Error()`. -/
def GoRegexp.ParseError.Error (e : GoRegexp.ParseError) : String :=
  "error parsing regexp: " ++ e.code.text ++ ": `" ++ e.expr ++ "`"

/-- Text `regexp.MustCompile` panics with, for a pattern that `strconv.CanBackquote`
accepts (no backquote, no control character). -/
def Panic.message : Panic → String
  | .mustCompile str err => "regexp: Compile(`" ++ str ++ "`): " ++ err.Error

/-- The panic every call of `normalizeTagStr` ends in. -/
def tagPatternPanic : Panic := .mustCompile tagPattern ⟨.invalidEscape, "\\u"⟩

/-- No injected failure. -/
def noFaults : Faults := fun _ => none

/-- Only the bulk comment delete of `ConsoleRemoveArticle` fails. -/
def commentDeleteFails : Faults := fun site =>
  if site = .removeDeleteComments then some "comment delete failed" else none

/-- A published article, identifier 10, written by user 1 in blog 1. -/
def seededArticle : Article :=
  { ID := 10, CreatedAt := 1500000000, AuthorID := 1, BlogID := 1, Title := "Hello",
    Tags := "go", Path := "/hello", Topped := false, Status := 1, ViewCount := 0,
    CommentCount := 2 }

/-- One article with two comments, its author having two articles on record. -/
def seededStore : Store :=
  { articles := [seededArticle]
    users := [{ ID := 1, BlogID := 1, ArticleCount := 2 }]
    comments := [{ ID := 1, ArticleID := 10 }, { ID := 2, ArticleID := 10 }]
    blogArticleCount := [(1, 2)] }

/-- Whether a call is a call on the service mutex. -/
def Call.isMutex (c : Call) : Bool := c = .mutexLock ∨ c = .mutexUnlock

/-- The three mutating operations of the service with their argument. -/
inductive ServiceCall where
  | addArticle (article : Article)
  | removeArticle (id : Nat)
  | updateArticle (article : Article)
  deriving DecidableEq, Repr

/-- Run one mutating operation. -/
def runServiceCall (f : Faults) (w : World) : ServiceCall → Option GoError × World
  | .addArticle article => ConsoleAddArticle f w article
  | .removeArticle id => ConsoleRemoveArticle f w id
  | .updateArticle article => ConsoleUpdateArticle f w article

/-- The calls one invocation makes, in program order: what it appends to the record. -/
def callTrace (f : Faults) (w : World) (sc : ServiceCall) : List Call :=
  (runServiceCall f w sc).2.log.drop w.log.length

/-- A schedule of two goroutines is the list of their calls in the order they happen,
each marked with the goroutine that makes it. `eventsOf who m` is the program order of
goroutine `who` in the schedule `m`. -/
def eventsOf (who : Bool) (m : List (Bool × Call)) : List Call :=
  (m.filter (fun e => e.1 == who)).map (fun e => e.2)

/-- All calls of a trace made by goroutine `who`, one after the other. -/
def tagged (who : Bool) (t : List Call) : List (Bool × Call) :=
  t.map (fun c => (who, c))

/-- Go's `sync.Mutex` along a schedule, `locked` being its state: `Lock` goes through
only while the mutex is free (a goroutine that finds it held waits, so its call happens
later), `Unlock` needs a held mutex; the mutex is not tied to a goroutine. -/
def respectsMutex : Bool → List (Bool × Call) → Bool
  | _, [] => true
  | locked, e :: rest =>
    if e.2 = .mutexLock then (if locked then false else respectsMutex true rest)
    else if e.2 = .mutexUnlock then (if locked then respectsMutex false rest else false)
    else respectsMutex locked rest

/-- A failed article removal (unknown identifier 99) wholly before an article creation. -/
def serialSchedule : List (Bool × Call) :=
  [(true, .mutexLock), (true, .dbBegin), (true, .dbFirstArticle 99), (true, .mutexUnlock),
    (false, .mutexLock), (false, .dbBegin), (false, .txCreate), (false, .txCommit),
    (false, .mutexUnlock)]

/-- The same two calls with the creation placed between the steps of the removal. -/
def interleavedSchedule : List (Bool × Call) :=
  [(true, .mutexLock), (true, .dbBegin), (false, .mutexLock), (false, .dbBegin),
    (false, .txCreate), (true, .dbFirstArticle 99), (false, .txCommit),
    (false, .mutexUnlock), (true, .mutexUnlock)]

/-- The record `l'` is the record `l` followed by calls that are not mutex calls. -/
def GrowsQuietly (l l' : List Call) : Prop :=
  ∃ mid, l' = l ++ mid ∧ ∀ c ∈ mid, Call.isMutex c = false

/-! ## Page-count arithmetic: proofs -/

theorem findShift_of_true (p : Nat → Bool) (fuel start : Nat) (h : p start = true) :
    findShift p (fuel + 1) start = start := by
  simp [findShift, h]

theorem start_le_findShift (p : Nat → Bool) :
    ∀ fuel start, start ≤ findShift p fuel start := by
  intro fuel
  induction fuel with
  | zero => intro start; simp [findShift]
  | succ fuel ih =>
    intro start
    unfold findShift
    split
    · exact le_refl _
    · exact le_trans (Nat.le_succ _) (ih (start + 1))

theorem le_findShift (p : Nat → Bool) (n : Nat) :
    ∀ fuel start, n ≤ start + fuel → (∀ i, start ≤ i → i < n → p i = false) →
      n ≤ findShift p fuel start := by
  intro fuel
  induction fuel with
  | zero => intro start h _; simpa [findShift] using h
  | succ fuel ih =>
    intro start h hp
    unfold findShift
    by_cases hlt : start < n
    · have hfalse : p start = false := hp start (le_refl _) hlt
      simp only [hfalse, Bool.false_eq_true, if_false]
      exact ih (start + 1) (by omega) (fun i hi hin => hp i (by omega) hin)
    · split
      · omega
      · exact le_trans (by omega) (start_le_findShift p fuel (start + 1))

theorem roundHalfEven_mul_right (a b c : Nat) (hc : 0 < c) :
    roundHalfEven (a * c) (b * c) = roundHalfEven a b := by
  unfold roundHalfEven
  rw [Nat.mul_div_mul_right a b hc, Nat.mul_mod_mul_right]
  have e1 : (2 * (a % b * c) < b * c) ↔ (2 * (a % b) < b) := by
    rw [← Nat.mul_assoc]; exact Nat.mul_lt_mul_right hc
  have e2 : (b * c < 2 * (a % b * c)) ↔ (b < 2 * (a % b)) := by
    rw [← Nat.mul_assoc]; exact Nat.mul_lt_mul_right hc
  simp only [e1, e2]

theorem float64Round_mul_right (a b c : Nat) (hc : 0 < c) :
    float64Round (a * c) (b * c) = float64Round a b := by
  unfold float64Round
  have hz : (a * c = 0) ↔ (a = 0) := by
    constructor
    · intro h; rcases Nat.mul_eq_zero.mp h with h | h
      · exact h
      · omega
    · intro h; simp [h]
  have ht : (fun t => decide (a * c < b * c * 2 ^ (53 + t))) =
      (fun t => decide (a < b * 2 ^ (53 + t))) := by
    funext t
    have : b * c * 2 ^ (53 + t) = b * 2 ^ (53 + t) * c := by ring
    rw [this, decide_eq_decide]
    exact Nat.mul_lt_mul_right hc
  have hs : (fun s => decide (b * c * 2 ^ 52 ≤ a * c * 2 ^ s)) =
      (fun s => decide (b * 2 ^ 52 ≤ a * 2 ^ s)) := by
    funext s
    have h1 : b * c * 2 ^ 52 = b * 2 ^ 52 * c := by ring
    have h2 : a * c * 2 ^ s = a * 2 ^ s * c := by ring
    rw [h1, h2, decide_eq_decide]
    exact ⟨fun h => Nat.le_of_mul_le_mul_right h hc, fun h => Nat.mul_le_mul_right c h⟩
  simp only [hz, ht, hs]
  split
  · rfl
  · have h3 : ∀ s t : Nat, roundHalfEven (a * c * 2 ^ s) (b * c * 2 ^ t) =
        roundHalfEven (a * 2 ^ s) (b * 2 ^ t) := by
      intro s t
      have h1 : a * c * 2 ^ s = a * 2 ^ s * c := by ring
      have h2 : b * c * 2 ^ t = b * 2 ^ t * c := by ring
      rw [h1, h2, roundHalfEven_mul_right _ _ _ hc]
    simp only [h3]

theorem roundHalfEven_one (a : Nat) : roundHalfEven a 1 = a := by
  unfold roundHalfEven
  simp [Nat.mod_one]

theorem float64OfInt_exact (n : Nat) (h0 : 0 < n) (h : n < 2 ^ 53) :
    ∃ s, float64OfInt n = ⟨n * 2 ^ s, 2 ^ s⟩ := by
  unfold float64OfInt float64Round
  have hn : ¬ n = 0 := by omega
  have ht : findShift (fun t => decide (n < 1 * 2 ^ (53 + t))) 1100 0 = 0 :=
    findShift_of_true _ 1099 0 (by simpa using h)
  simp only [hn, if_false, ht]
  refine ⟨findShift (fun s => decide (1 * 2 ^ 52 ≤ n * 2 ^ s)) 1100 0, ?_⟩
  simp only [pow_zero, mul_one, roundHalfEven_one]

theorem ceil_roundHalfEven (n S : Nat) (hS : 8 ≤ S) :
    (roundHalfEven (n * S) 15 + S - 1) / S = (n + 14) / 15 := by
  obtain ⟨k, r, hr, rfl⟩ : ∃ k r, r < 15 ∧ n = 15 * k + r :=
    ⟨n / 15, n % 15, Nat.mod_lt _ (by norm_num), (Nat.div_add_mod n 15).symm⟩
  have e : (15 * k + r) * S = 15 * (k * S) + r * S := by ring
  rw [e]
  by_cases hr0 : r = 0
  · subst hr0
    have hm : roundHalfEven (15 * (k * S) + 0 * S) 15 = k * S := by
      unfold roundHalfEven
      generalize k * S = kS
      split_ifs <;> omega
    rw [hm]
    have h1 : (15 * k + 0 + 14) / 15 = k := by omega
    rw [h1]
    have hi : k * S + S - 1 < (k + 1) * S := by
      have e2 : (k + 1) * S = k * S + S := by ring
      omega
    exact Nat.div_eq_of_lt_le (by omega) hi
  · have hlo : S ≤ r * S := Nat.le_mul_of_pos_left S (by omega)
    have hhi : r * S ≤ 14 * S := Nat.mul_le_mul_right S (by omega)
    have hm : k * S < roundHalfEven (15 * (k * S) + r * S) 15 ∧
        roundHalfEven (15 * (k * S) + r * S) 15 < k * S + S := by
      unfold roundHalfEven
      generalize k * S = kS at *
      generalize r * S = rS at *
      split_ifs <;> omega
    have h1 : (15 * k + r + 14) / 15 = k + 1 := by omega
    rw [h1]
    generalize roundHalfEven (15 * (k * S) + r * S) 15 = m at hm
    have e2 : (k + 1) * S = k * S + S := by ring
    have e3 : (k + 1 + 1) * S = k * S + S + S := by ring
    have lo : (k + 1) * S ≤ m + S - 1 := by omega
    have hi : m + S - 1 < (k + 1 + 1) * S := by omega
    exact Nat.div_eq_of_lt_le lo hi

theorem pageCountOf_eq (count : Nat) (h : count ≤ 2 ^ 53) :
    pageCountOf count = (count + 14) / 15 := by
  rcases Nat.eq_zero_or_pos count with h0 | h0
  · subst h0; decide
  rcases Nat.lt_or_ge count (2 ^ 53) with hlt | hge
  · obtain ⟨s, hs⟩ := float64OfInt_exact count h0 hlt
    have h15 : float64OfInt adminConsoleArticleListPageSize = ⟨15 * 2 ^ 49, 2 ^ 49⟩ := by
      decide
    unfold pageCountOf
    rw [hs, h15]
    have hdiv : Float64.div ⟨count * 2 ^ s, 2 ^ s⟩ ⟨15 * 2 ^ 49, 2 ^ 49⟩ =
        float64Round count 15 := by
      unfold Float64.div
      have e1 : count * 2 ^ s * 2 ^ 49 = count * (2 ^ s * 2 ^ 49) := by ring
      have e2 : 2 ^ s * (15 * 2 ^ 49) = 15 * (2 ^ s * 2 ^ 49) := by ring
      simp only [e1, e2]
      exact float64Round_mul_right count 15 _ (by positivity)
    rw [hdiv]
    unfold float64Round
    have hn : ¬ count = 0 := by omega
    have ht : findShift (fun t => decide (count < 15 * 2 ^ (53 + t))) 1100 0 = 0 :=
      findShift_of_true _ 1099 0 (by simp; omega)
    have hs3 : 3 ≤ findShift (fun s => decide (15 * 2 ^ 52 ≤ count * 2 ^ s)) 1100 0 := by
      apply le_findShift _ 3 1100 0 (by norm_num)
      intro i _ hi
      have : count * 2 ^ i < 15 * 2 ^ 52 := by
        interval_cases i <;> omega
      simpa using this
    simp only [hn, if_false, ht]
    generalize findShift (fun s => decide (15 * 2 ^ 52 ≤ count * 2 ^ s)) 1100 0 = s' at hs3
    have hS : 8 ≤ 2 ^ s' := by
      calc 8 = 2 ^ 3 := by norm_num
        _ ≤ 2 ^ s' := Nat.pow_le_pow_right (by norm_num) hs3
    simp only [mathCeil, intOfFloat64, pow_zero, mul_one, Nat.div_one]
    exact ceil_roundHalfEven count (2 ^ s') hS
  · have : count = 2 ^ 53 := le_antisymm h hge
    subst this; decide

/-! ## Tag normalisation: proofs -/

theorem mustCompile_whitespace :
    regexpMustCompile "\\s+" = .ok (.plus (.charClass false [(9, 10), (12, 13), (32, 32)])) :=
  rfl

theorem mustCompile_tagPattern : regexpMustCompile tagPattern = .error tagPatternPanic :=
  rfl

theorem normalizeTagStrWith_tagPattern (tagStr : String) :
    normalizeTagStrWith tagPattern tagStr = .error tagPatternPanic := by
  unfold normalizeTagStrWith
  rw [mustCompile_whitespace]
  simp only [mustCompile_tagPattern]

/-- C10: the second pattern of `normalizeTagStr` is rejected by the parser of Go's
regular expressions with "invalid escape sequence" at the escape `\u`, while the first
pattern compiles; so `regexp.MustCompile` panics and `normalizeTagStr` returns no string,
whatever its input. -/
theorem normalizeTagStr_always_panics :
    GoRegexp.Compile "\\s+" = .ok (.plus (.charClass false [(9, 10), (12, 13), (32, 32)])) ∧
    GoRegexp.Compile tagPattern = .error ⟨.invalidEscape, "\\u"⟩ ∧
    tagPatternPanic.message =
      "regexp: Compile(`[\\u4e00-\\u9fa5,\\w,&,\\+,\\-,\\.]+`): error parsing regexp: invalid escape sequence: `\\u`" ∧
    ∀ tagStr : String, normalizeTagStr tagStr = .error tagPatternPanic :=
  ⟨rfl, rfl, by decide, fun tagStr => normalizeTagStrWith_tagPattern tagStr⟩

/-- C1: on the already normalised input `"go,rust"` the call `normalizeTagStr` panics
instead of returning the input unchanged, so neither side of the idempotence equation has
a value; with the two CJK bounds of the class written as characters the same body returns
`"go,rust"`. -/
theorem normalizeTagStr_normalized_input :
    normalizeTagStr "go,rust" = .error tagPatternPanic ∧
    normalizeTagStrWith tagPatternChars "go,rust" = .ok "go,rust" :=
  ⟨rfl, rfl⟩

/-- C5: on `"go,go,go"` the call `normalizeTagStr` panics instead of returning `"go"`;
with the two CJK bounds of the class written as characters the same body returns `"go"`. -/
theorem normalizeTagStr_duplicates :
    normalizeTagStr "go,go,go" = .error tagPatternPanic ∧
    normalizeTagStrWith tagPatternChars "go,go,go" = .ok "go" :=
  ⟨rfl, rfl⟩

/-- C6: on `"go，rust；ts"` the call `normalizeTagStr` panics instead of returning
`"go,rust,ts"`; with the two CJK bounds of the class written as characters the same body
returns `"go,rust,ts"`. -/
theorem normalizeTagStr_delimiters :
    normalizeTagStr "go，rust；ts" = .error tagPatternPanic ∧
    normalizeTagStrWith tagPatternChars "go，rust；ts" = .ok "go,rust,ts" :=
  ⟨rfl, rfl⟩

/-- C7: on `"  ,  , go "` the call `normalizeTagStr` panics instead of returning `"go"`;
with the two CJK bounds of the class written as characters the same body returns `"go"`. -/
theorem normalizeTagStr_whitespace :
    normalizeTagStr "  ,  , go " = .error tagPatternPanic ∧
    normalizeTagStrWith tagPatternChars "  ,  , go " = .ok "go" :=
  ⟨rfl, rfl⟩

/-- C8: on `"go,a!b"` the call `normalizeTagStr` panics instead of returning `"go"`; with
the two CJK bounds of the class written as characters the same body keeps the candidate
`a!b`, because `MatchString` looks for the class anywhere in the candidate. -/
theorem normalizeTagStr_allow_list :
    normalizeTagStr "go,a!b" = .error tagPatternPanic ∧
    normalizeTagStrWith tagPatternChars "go,a!b" = .ok "go,a!b" :=
  ⟨rfl, rfl⟩

/-! ## Article removal and update: proofs -/

theorem ConsoleAddArticle_failure_keeps_store (f : Faults) (w : World) (article : Article)
    (msg : String) (h : f .addCreate = some msg) :
    (ConsoleAddArticle f w article).1 = some (.collaborator msg) ∧
    (ConsoleAddArticle f w article).2.store = w.store := by
  simp [ConsoleAddArticle, faultAt, h, txRollback, World.call]

/-- C2: one article with two comments is seeded and the bulk comment delete is made to
fail: `ConsoleRemoveArticle` returns that error, but the article row is gone, the
author's article count has dropped from 2 to 1 and the blog counter from 2 to 1; only the
comments are still there. The rollback is issued on a transaction that holds no write. -/
theorem ConsoleRemoveArticle_comment_delete_fails :
    ConsoleRemoveArticle commentDeleteFails ⟨seededStore, []⟩ 10 =
      (some (.collaborator "comment delete failed"),
        { store :=
            { articles := []
              users := [{ ID := 1, BlogID := 1, ArticleCount := 1 }]
              comments := [{ ID := 1, ArticleID := 10 }, { ID := 2, ArticleID := 10 }]
              blogArticleCount := [(1, 1)] }
          log := [.mutexLock, .dbBegin, .dbFirstArticle 10, .dbFirstUser 1, .dbUpdatesUser 1,
            .dbDeleteArticle 10, .decArticleCountWithoutTx 1, .dbFindComments 10,
            .dbDeleteComments 10, .txRollback, .mutexUnlock] }) ∧
    (ConsoleRemoveArticle commentDeleteFails ⟨seededStore, []⟩ 10).2.store ≠ seededStore := by
  decide

/-- C4 (counterexample): for the count 9007199254741021 = 2^53 + 29, a value of Go's
64-bit `int`, the conversion to `float64` rounds to 2^53 + 28 = 15 * 600479950316068, so
the total-pages value passed is 600479950316068, and fifteen times it is less than the
count. -/
theorem ConsoleGetArticles_pageCount_large :
    9007199254741021 < 2 ^ 63 ∧
    float64OfInt 9007199254741021 = ⟨9007199254741020, 1⟩ ∧
    (ConsoleGetArticlesPagination 1 9007199254741021).pageCount = 600479950316068 ∧
    ¬ 9007199254741021 ≤ 15 * (ConsoleGetArticlesPagination 1 9007199254741021).pageCount := by
  decide

/-- C4 (amended): for every count from 0 to 2^53 the total-pages value passed to the
pagination descriptor is the least `n` with `15 * n ≥ count`; count 32 gives 3 and count 0
gives 0; for every count the page size and the window size passed are 15 and 20. -/
theorem ConsoleGetArticles_pageCount (page : Int) (count : Nat) (h : count ≤ 2 ^ 53) :
    (count ≤ 15 * (ConsoleGetArticlesPagination page count).pageCount ∧
      ∀ n, count ≤ 15 * n → (ConsoleGetArticlesPagination page count).pageCount ≤ n) ∧
    (ConsoleGetArticlesPagination page 32).pageCount = 3 ∧
    (ConsoleGetArticlesPagination page 0).pageCount = 0 ∧
    ∀ c, (ConsoleGetArticlesPagination page c).pageSize = 15 ∧
      (ConsoleGetArticlesPagination page c).windowSize = 20 := by
  have e : (ConsoleGetArticlesPagination page count).pageCount = (count + 14) / 15 :=
    pageCountOf_eq count h
  have e32 : pageCountOf 32 = 3 := by decide
  have e0 : pageCountOf 0 = 0 := by decide
  refine ⟨?_, e32, e0, fun c => ⟨rfl, rfl⟩⟩
  rw [e]
  constructor
  · omega
  · intro n hn; omega

/-- Witness of C4 (amended) at count 47, which needs 4 pages. -/
theorem ConsoleGetArticles_pageCount_witness :
    47 ≤ 2 ^ 53 ∧
    ((47 ≤ 15 * (ConsoleGetArticlesPagination 1 47).pageCount ∧
      ∀ n, 47 ≤ 15 * n → (ConsoleGetArticlesPagination 1 47).pageCount ≤ n) ∧
    (ConsoleGetArticlesPagination 1 32).pageCount = 3 ∧
    (ConsoleGetArticlesPagination 1 0).pageCount = 0 ∧
    ∀ c, (ConsoleGetArticlesPagination 1 c).pageSize = 15 ∧
      (ConsoleGetArticlesPagination 1 c).windowSize = 20) :=
  ⟨by norm_num, ConsoleGetArticles_pageCount 1 47 (by norm_num)⟩

/-! ## Mutex discipline: proofs -/

theorem growsQuietly_refl (l : List Call) : GrowsQuietly l l :=
  ⟨[], by simp, by simp⟩

theorem growsQuietly_snoc (l l' : List Call) (c : Call) (h : GrowsQuietly l l')
    (hc : Call.isMutex c = false) : GrowsQuietly l (l' ++ [c]) := by
  obtain ⟨mid, rfl, hmid⟩ := h
  refine ⟨mid ++ [c], by simp, ?_⟩
  intro x hx
  rcases List.mem_append.mp hx with hx | hx
  · exact hmid x hx
  · simp at hx; subst hx; exact hc

theorem removeArticleBody_growsQuietly (f : Faults) (w : World) (id : Nat) :
    GrowsQuietly w.log (removeArticleBody f w id).2.log := by
  unfold removeArticleBody
  simp only [World.call, txRollback, txCommit]
  repeat' split
  all_goals
    dsimp only
    repeat' first
      | exact growsQuietly_refl _
      | apply growsQuietly_snoc
      | rfl

theorem serviceCall_log (f : Faults) (w : World) (sc : ServiceCall) :
    ∃ mid, (runServiceCall f w sc).2.log = w.log ++ (.mutexLock :: mid ++ [.mutexUnlock]) ∧
      ∀ c ∈ mid, Call.isMutex c = false := by
  cases sc with
  | addArticle article =>
    unfold runServiceCall ConsoleAddArticle
    cases hf : faultAt f .addCreate with
    | some err =>
      exact ⟨[.dbBegin, .txCreate, .txRollback], by simp [World.call, txRollback],
        by simp [Call.isMutex]⟩
    | none =>
      exact ⟨[.dbBegin, .txCreate, .txCommit], by simp [World.call, txCommit],
        by simp [Call.isMutex]⟩
  | removeArticle id =>
    obtain ⟨mid, hmid, hq⟩ := removeArticleBody_growsQuietly f (w.call .mutexLock) id
    refine ⟨mid, ?_, hq⟩
    simp only [World.call] at hmid
    simp [runServiceCall, ConsoleRemoveArticle, hmid, World.call]
  | updateArticle article =>
    unfold runServiceCall ConsoleUpdateArticle
    by_cases hc : countArticlesQuery f w.store article.ID = 0
    · exact ⟨[.dbCountArticles article.ID], by simp [hc, World.call],
        by simp [Call.isMutex]⟩
    · cases hf : faultAt f .updateUpdates with
      | some err =>
        exact ⟨[.dbCountArticles article.ID, .dbBegin, .dbUpdatesArticle article.ID,
          .txRollback], by simp [hc, World.call, txRollback], by simp [Call.isMutex]⟩
      | none =>
        exact ⟨[.dbCountArticles article.ID, .dbBegin, .dbUpdatesArticle article.ID,
          .txCommit], by simp [hc, World.call, txCommit], by simp [Call.isMutex]⟩

theorem callTrace_shape (f : Faults) (w : World) (sc : ServiceCall) :
    ∃ mid, callTrace f w sc = .mutexLock :: mid ++ [.mutexUnlock] ∧
      ∀ c ∈ mid, Call.isMutex c = false := by
  obtain ⟨mid, hlog, hq⟩ := serviceCall_log f w sc
  exact ⟨mid, by simp [callTrace, hlog], hq⟩

theorem eventsOf_cons (who : Bool) (e : Bool × Call) (rest : List (Bool × Call)) :
    eventsOf who (e :: rest) =
      if e.1 = who then e.2 :: eventsOf who rest else eventsOf who rest := by
  unfold eventsOf
  by_cases h : e.1 = who <;> simp [List.filter_cons, h]

theorem eq_tagged_of_eventsOf_nil (who : Bool) :
    ∀ m : List (Bool × Call), eventsOf who m = [] → m = tagged (!who) (eventsOf (!who) m) := by
  intro m
  induction m with
  | nil => intro _; rfl
  | cons e rest ih =>
    intro h
    rw [eventsOf_cons] at h
    by_cases he : e.1 = who
    · simp [he] at h
    · simp only [he, if_false] at h
      have he2 : e.1 = !who := by
        cases hw : who <;> cases h1 : e.1 <;> simp_all
      rw [eventsOf_cons]
      simp only [he2, if_true]
      have := ih h
      simp only [tagged, List.map_cons] at this ⊢
      rw [← this, ← he2]

theorem holder_runs_to_unlock (who : Bool) :
    ∀ r : List Call, (∀ c ∈ r, Call.isMutex c = false) →
      ∀ (m : List (Bool × Call)) (tb : List Call),
        eventsOf who m = r ++ [.mutexUnlock] → eventsOf (!who) m = .mutexLock :: tb →
        respectsMutex true m = true →
        m = tagged who (r ++ [.mutexUnlock]) ++ tagged (!who) (.mutexLock :: tb) := by
  intro r
  induction r with
  | nil =>
    intro _ m tb h1 h2 h3
    cases m with
    | nil => simp [eventsOf] at h1
    | cons e rest =>
      rw [eventsOf_cons] at h1 h2
      by_cases he : e.1 = who
      · have hne : ¬ e.1 = !who := by rw [he]; cases who <;> simp
        simp only [he, if_true, List.nil_append, List.cons.injEq] at h1
        simp only [hne, if_false] at h2
        have hrest := eq_tagged_of_eventsOf_nil who rest h1.2
        rw [h2] at hrest
        rw [hrest]
        simp only [tagged, List.map_cons, List.map_nil, List.nil_append, List.cons_append,
          List.cons.injEq, and_true]
        exact Prod.ext he h1.1
      · have he2 : e.1 = !who := by
          cases hw : who <;> cases h1' : e.1 <;> simp_all
        simp only [he2, if_true, List.cons.injEq] at h2
        simp [respectsMutex, h2.1] at h3
  | cons x r ih =>
    intro hr m tb h1 h2 h3
    cases m with
    | nil => simp [eventsOf] at h1
    | cons e rest =>
      rw [eventsOf_cons] at h1 h2
      by_cases he : e.1 = who
      · have hne : ¬ e.1 = !who := by rw [he]; cases who <;> simp
        simp only [he, if_true, List.cons_append, List.cons.injEq] at h1
        simp only [hne, if_false] at h2
        have hx : Call.isMutex x = false := hr x (by simp)
        have hx1 : ¬ e.2 = .mutexLock := by
          rw [h1.1]; intro h; simp [Call.isMutex, h] at hx
        have hx2 : ¬ e.2 = .mutexUnlock := by
          rw [h1.1]; intro h; simp [Call.isMutex, h] at hx
        have h3' : respectsMutex true rest = true := by
          simpa [respectsMutex, hx1, hx2] using h3
        have := ih (fun c hc => hr c (by simp [hc])) rest tb h1.2 h2 h3'
        rw [this]
        simp only [tagged, List.map_cons, List.cons_append, List.cons.injEq, and_true]
        exact Prod.ext he h1.1
      · have he2 : e.1 = !who := by
          cases hw : who <;> cases h1' : e.1 <;> simp_all
        simp only [he2, if_true, List.cons.injEq] at h2
        simp [respectsMutex, h2.1] at h3

theorem schedule_serial (mid1 mid2 : List Call)
    (h1 : ∀ c ∈ mid1, Call.isMutex c = false) (h2 : ∀ c ∈ mid2, Call.isMutex c = false)
    (m : List (Bool × Call))
    (e1 : eventsOf true m = .mutexLock :: mid1 ++ [.mutexUnlock])
    (e2 : eventsOf false m = .mutexLock :: mid2 ++ [.mutexUnlock])
    (hm : respectsMutex false m = true) :
    m = tagged true (.mutexLock :: mid1 ++ [.mutexUnlock]) ++
          tagged false (.mutexLock :: mid2 ++ [.mutexUnlock]) ∨
    m = tagged false (.mutexLock :: mid2 ++ [.mutexUnlock]) ++
          tagged true (.mutexLock :: mid1 ++ [.mutexUnlock]) := by
  cases m with
  | nil => simp [eventsOf] at e1
  | cons e rest =>
    rw [eventsOf_cons] at e1 e2
    by_cases he : e.1 = true
    · left
      simp only [he, if_true, List.cons_append, List.cons.injEq] at e1
      simp only [he, Bool.true_eq_false, if_false] at e2
      have hm' : respectsMutex true rest = true := by
        simpa [respectsMutex, e1.1] using hm
      have := holder_runs_to_unlock true mid1 h1 rest (mid2 ++ [.mutexUnlock]) e1.2
        (by simpa using e2) hm'
      rw [this]
      simp only [tagged, List.map_cons, List.cons_append, List.cons.injEq, Bool.not_true,
        and_true]
      exact Prod.ext he e1.1
    · right
      have he2 : e.1 = false := by simpa using he
      simp only [he2, Bool.false_eq_true, if_false] at e1
      simp only [he2, if_true, List.cons_append, List.cons.injEq] at e2
      have hm' : respectsMutex true rest = true := by
        simpa [respectsMutex, e2.1] using hm
      have := holder_runs_to_unlock false mid2 h2 rest (mid1 ++ [.mutexUnlock]) e2.2
        (by simpa using e1) hm'
      rw [this]
      simp only [tagged, List.map_cons, List.cons_append, List.cons.injEq, Bool.not_false,
        and_true]
      exact Prod.ext he2 e2.1

theorem interleavedSchedule_blocked :
    eventsOf true interleavedSchedule =
      callTrace noFaults ⟨seededStore, []⟩ (.removeArticle 99) ∧
    eventsOf false interleavedSchedule =
      callTrace noFaults ⟨seededStore, []⟩ (.addArticle seededArticle) ∧
    respectsMutex false interleavedSchedule = false := by
  decide

/-- C9: every call of `ConsoleAddArticle`, `ConsoleRemoveArticle` and
`ConsoleUpdateArticle`, on every return path (all injected failures, every store), makes
`mutex.Lock` its first call and `mutex.Unlock` its last, with no mutex call in between;
and every schedule of two goroutines whose program orders have that shape, in particular
the traces of any two of these calls, and which respects the mutex, is one of the two
serial orders: the steps of the two calls do not interleave. -/
theorem mutex_serialises_calls (f1 f2 : Faults) (w1 w2 : World) (sc1 sc2 : ServiceCall) :
    (∃ mid, (runServiceCall f1 w1 sc1).2.log = w1.log ++ (.mutexLock :: mid ++ [.mutexUnlock]) ∧
      ∀ c ∈ mid, Call.isMutex c = false) ∧
    (∀ (mid1 mid2 : List Call) (m : List (Bool × Call)),
      (∀ c ∈ mid1, Call.isMutex c = false) → (∀ c ∈ mid2, Call.isMutex c = false) →
      eventsOf true m = .mutexLock :: mid1 ++ [.mutexUnlock] →
      eventsOf false m = .mutexLock :: mid2 ++ [.mutexUnlock] →
      respectsMutex false m = true →
      m = tagged true (.mutexLock :: mid1 ++ [.mutexUnlock]) ++
            tagged false (.mutexLock :: mid2 ++ [.mutexUnlock]) ∨
      m = tagged false (.mutexLock :: mid2 ++ [.mutexUnlock]) ++
            tagged true (.mutexLock :: mid1 ++ [.mutexUnlock])) ∧
    (∀ m : List (Bool × Call),
      eventsOf true m = callTrace f1 w1 sc1 → eventsOf false m = callTrace f2 w2 sc2 →
      respectsMutex false m = true →
      m = tagged true (callTrace f1 w1 sc1) ++ tagged false (callTrace f2 w2 sc2) ∨
      m = tagged false (callTrace f2 w2 sc2) ++ tagged true (callTrace f1 w1 sc1)) := by
  refine ⟨serviceCall_log f1 w1 sc1, ?_, ?_⟩
  · intro mid1 mid2 m h1 h2 e1 e2 hm
    exact schedule_serial mid1 mid2 h1 h2 m e1 e2 hm
  · intro m e1 e2 hm
    obtain ⟨mid1, t1, h1⟩ := callTrace_shape f1 w1 sc1
    obtain ⟨mid2, t2, h2⟩ := callTrace_shape f2 w2 sc2
    rw [t1] at e1 ⊢
    rw [t2] at e2 ⊢
    exact schedule_serial mid1 mid2 h1 h2 m e1 e2 hm

/-- Witness of C9: a failed removal and a creation on the seeded store, scheduled one
after the other. -/
theorem mutex_serialises_calls_witness :
    eventsOf true serialSchedule = callTrace noFaults ⟨seededStore, []⟩ (.removeArticle 99) ∧
    eventsOf false serialSchedule =
      callTrace noFaults ⟨seededStore, []⟩ (.addArticle seededArticle) ∧
    respectsMutex false serialSchedule = true ∧
    (serialSchedule =
        tagged true (callTrace noFaults ⟨seededStore, []⟩ (.removeArticle 99)) ++
          tagged false (callTrace noFaults ⟨seededStore, []⟩ (.addArticle seededArticle)) ∨
      serialSchedule =
        tagged false (callTrace noFaults ⟨seededStore, []⟩ (.addArticle seededArticle)) ++
          tagged true (callTrace noFaults ⟨seededStore, []⟩ (.removeArticle 99))) :=
  ⟨by decide, by decide, by decide,
    (mutex_serialises_calls noFaults noFaults ⟨seededStore, []⟩ ⟨seededStore, []⟩
      (.removeArticle 99) (.addArticle seededArticle)).2.2 serialSchedule
      (by decide) (by decide) (by decide)⟩
